import Mathlib

/-!
Verification of the extension dispatch core of the sthagen/rogerbinns-apsw
repository against its natural-language specification.

The repository ships the Python test-suite and tooling; the C core that the
tests exercise (Connection / Cursor / Blob / Backup lifecycle, statement
cache, value codec, virtual-table bridge) is not part of the source tree
here, so the definitions below are modelled from the own words of the
specification, and the properties are settled against those models.  Each modelled
definition carries a doc comment naming the part of the core it stands for.
-/

namespace Apsw

/-- Modelled from the spec: the error categories of the error-handling design
that the claims mention (BusyError, IncompleteExecutionError, BindingsError,
OverflowError, TypeError, ValueError, ThreadingViolationError,
ConnectionClosedError, SQLError, and the closed-handle kinds). -/
inductive ErrKind where
  | busy
  | incompleteExecution
  | bindingsErr
  | overflow
  | typeErr
  | valueErr
  | threadingViolation
  | connectionClosed
  | cursorClosed
  | blobClosed
  | sqlErr
  deriving DecidableEq

/-! ## Connection close and dependents (claim C1) -/

/-- Modelled from the spec: the kind of a dependent object registered on a
Connection: a Cursor (which may or may not have unread rows), a Blob, or a
Backup. -/
inductive DepKind where
  | cursor (unreadRows : Bool)
  | blob
  | backup
  deriving DecidableEq

/-- Modelled from the spec: a dependent object tracked in the weak set of its
Connection, with its terminal closed state. -/
structure Dependent where
  kind : DepKind
  closed : Bool
  deriving DecidableEq

/-- Modelled from the spec: a dependent is live when it has not been closed
and it constrains close: a Cursor counts only while it has unread rows, a
Blob or Backup counts as long as it is open. -/
def Dependent.live (d : Dependent) : Bool :=
  !d.closed &&
    (match d.kind with
     | .cursor unread => unread
     | .blob => true
     | .backup => true)

/-- Modelled from the spec: force-closing invalidates a dependent, moving it
to the terminal closed state. -/
def Dependent.invalidate (d : Dependent) : Dependent :=
  { d with closed := true }

/-- Modelled from the spec: a Connection owns its open flag and the set of
dependents (Cursors, Blobs, Backups). -/
structure Connection where
  isOpen : Bool
  dependents : List Dependent
  deriving DecidableEq

/-- Modelled from the spec: the error reported by a refused non-force close:
IncompleteExecutionError when a live Cursor holds unread rows, BusyError for
a live Blob or Backup. -/
def Connection.closeRefusalError (c : Connection) : ErrKind :=
  if c.dependents.any (fun d => d.live && (match d.kind with
      | .cursor _ => true
      | _ => false)) then
    .incompleteExecution
  else
    .busy

/-- Modelled from the spec: Connection.close(force).  With a live dependent a
non-force close fails (IncompleteExecutionError / BusyError) leaving the
Connection open; a force close invalidates every dependent and then
finalizes the Connection. -/
def Connection.close (c : Connection) (force : Bool) : Except ErrKind Connection :=
  if c.dependents.any Dependent.live then
    if force then
      .ok { isOpen := false, dependents := c.dependents.map Dependent.invalidate }
    else
      .error c.closeRefusalError
  else
    .ok { isOpen := false, dependents := c.dependents.map Dependent.invalidate }

/-- An invalidated dependent is never live. -/
theorem Dependent.live_invalidate (d : Dependent) : d.invalidate.live = false := by
  simp [Dependent.live, Dependent.invalidate]

/-- C1: with at least one live dependent, close(force := false) fails with
IncompleteExecutionError or BusyError and the Connection state is untouched
(it stays open); close(force := true) succeeds and invalidates every
dependent; and whenever close succeeds, no dependent of the resulting
Connection is live, so a dependent never outlives its Connection. -/
theorem connection_close_dependents (c : Connection)
    (hlive : c.dependents.any Dependent.live = true) :
    (c.close false = .error .incompleteExecution ∨ c.close false = .error .busy) ∧
    (∃ c2, c.close true = .ok c2 ∧ c2.isOpen = false ∧
      c2.dependents.all (fun d => !d.live) = true) ∧
    (∀ force c3, c.close force = .ok c3 →
      c3.isOpen = false ∧ c3.dependents.all (fun d => !d.live) = true) := by
  refine ⟨?_, ?_, ?_⟩
  · unfold Connection.close
    rw [hlive]
    cases h : c.closeRefusalError <;> simp_all [Connection.closeRefusalError] <;>
      split at h <;> simp_all
  · refine ⟨⟨false, c.dependents.map Dependent.invalidate⟩, ?_, rfl, ?_⟩
    · unfold Connection.close
      rw [hlive]
      rfl
    · simp [List.all_eq_true]
      intro d hd
      simp [Dependent.live_invalidate]
  · intro force c3 hok
    unfold Connection.close at hok
    rw [hlive] at hok
    have hall : ∀ (l : List Dependent),
        (l.map Dependent.invalidate).all (fun d => !d.live) = true := by
      intro l
      simp [List.all_eq_true]
      intro d hd
      simp [Dependent.live_invalidate]
    cases force with
    | false => simp at hok
    | true =>
      simp at hok
      refine ⟨?_, ?_⟩
      · rw [← hok]
      · rw [← hok]
        exact hall c.dependents

/-- C1 witness: a Connection holding a live Blob dependent exhibits the
refusal, the forced close, and the no-live-dependent outcome. -/
theorem connection_close_dependents_witness :
    (let c : Connection := ⟨true, [⟨.blob, false⟩]⟩
     c.dependents.any Dependent.live = true) ∧
    (let c : Connection := ⟨true, [⟨.blob, false⟩]⟩
     (c.close false = .error .incompleteExecution ∨ c.close false = .error .busy)) := by
  refine ⟨by decide, ?_⟩
  exact (connection_close_dependents ⟨true, [⟨.blob, false⟩]⟩ (by decide)).1

/-! ## Blob lifecycle (claim C6) -/

/-- Modelled from the spec: a Blob handle holding the byte content of its owning
row, the current file position, the writability flag, and the terminal
closed state. -/
structure Blob where
  closed : Bool
  pos : Nat
  data : List Nat
  writable : Bool
  deriving DecidableEq

/-- Modelled from the spec: the Blob operations named by the claim (read,
readinto, seek, tell, write). -/
inductive BlobOp where
  | read (n : Nat)
  | readinto (n : Nat)
  | seek (offset : Int) (whence : Nat)
  | tell
  | write (bs : List Nat)
  deriving DecidableEq

/-- Result of a successful Blob operation: bytes returned, a position, or
nothing. -/
inductive BlobRet where
  | bytes (bs : List Nat)
  | position (n : Nat)
  | unit
  deriving DecidableEq

/-- Modelled from the spec: the absolute position a seek requests, from the
whence base (0 = start, 1 = current, 2 = end). -/
def Blob.seekTarget (b : Blob) (offset : Int) (whence : Nat) : Int :=
  match whence with
  | 0 => offset
  | 1 => (b.pos : Int) + offset
  | _ => (b.data.length : Int) + offset

/-- Modelled from the spec: applying one Blob operation.  Every operation on
a closed Blob fails with the closed kind of error; otherwise reads return up
to n bytes from the position, seek bounds-checks its target (ValueError when
out of range), tell reports the position, and writes beyond the length fail
with ValueError. -/
def Blob.applyOp (b : Blob) (op : BlobOp) : Except ErrKind (BlobRet × Blob) :=
  if b.closed then
    .error .blobClosed
  else
    match op with
    | .read n =>
      let out := (b.data.drop b.pos).take n
      .ok (.bytes out, { b with pos := b.pos + out.length })
    | .readinto n =>
      if b.pos + n ≤ b.data.length then
        .ok (.bytes ((b.data.drop b.pos).take n), { b with pos := b.pos + n })
      else
        .error .valueErr
    | .seek offset whence =>
      if whence > 2 then
        .error .valueErr
      else
        let t := b.seekTarget offset whence
        if 0 ≤ t ∧ t ≤ (b.data.length : Int) then
          .ok (.unit, { b with pos := t.toNat })
        else
          .error .valueErr
    | .tell => .ok (.position b.pos, b)
    | .write bs =>
      if !b.writable then
        .error .valueErr
      else if b.pos + bs.length ≤ b.data.length then
        .ok (.unit,
          { b with
            data := b.data.take b.pos ++ bs ++ b.data.drop (b.pos + bs.length),
            pos := b.pos + bs.length })
      else
        .error .valueErr

/-- Modelled from the spec: Blob.close moves the Blob to the terminal closed
state even when the close itself reports an error (the flag models an error
such as a pending ReadOnly failure surfaced by the close). -/
def Blob.close (b : Blob) (closeReportsError : Bool) : Except ErrKind Unit × Blob :=
  (if closeReportsError then .error .sqlErr else .ok (), { b with closed := true })

/-- C6: after a close — including a close that itself reported an error —
every subsequent Blob operation (read, readinto, seek, tell, write) fails
with the closed kind of error. -/
theorem blob_ops_fail_after_close (b : Blob) (closeReportsError : Bool) (op : BlobOp) :
    ((b.close closeReportsError).2).applyOp op = .error .blobClosed := by
  simp [Blob.close, Blob.applyOp]

/-! ## Backup lifecycle (claim C7) -/

/-- Modelled from the spec: the destination Connection of a Backup: its open
Cursors (true means open) and whether a Backup is currently live on it. -/
structure DestConn where
  cursors : List Bool
  backupLive : Bool
  deriving DecidableEq

/-- Modelled from the spec: the Backup object with its finished flag and the
remaining-pages snapshot. -/
structure Backup where
  finished : Bool
  remaining : Nat
  deriving DecidableEq

/-- Modelled from the spec: creating a Backup locks the destination
Connection: all its pre-existing Cursors are closed and the Backup becomes
live. -/
def DestConn.createBackup (c : DestConn) (pages : Nat) : DestConn × Backup :=
  ({ cursors := c.cursors.map (fun _ => false), backupLive := true },
   { finished := false, remaining := pages })

/-- Modelled from the spec: producing a new Cursor on the destination fails
with ThreadingViolationError while a Backup is live. -/
def DestConn.newCursor (c : DestConn) : Except ErrKind DestConn :=
  if c.backupLive then
    .error .threadingViolation
  else
    .ok { c with cursors := c.cursors ++ [true] }

/-- Modelled from the spec: Backup.step copies pages (all of them when the
argument is negative); it fails once the Backup is finished. -/
def Backup.step (b : Backup) (pages : Int) : Except ErrKind Backup :=
  if b.finished then
    .error .connectionClosed
  else if pages < 0 then
    .ok { b with remaining := 0 }
  else
    .ok { b with remaining := b.remaining - pages.toNat }

/-- Modelled from the spec: Backup.finish is idempotent and moves the Backup
to the finished state. -/
def Backup.finish (b : Backup) : Backup :=
  { b with finished := true }

/-- C7: while a Backup is live the destination Connection refuses to produce
new Cursors with ThreadingViolationError, every Cursor that existed on the
destination beforehand is closed; after finish() every step fails, and a
second finish() is harmless (it changes nothing). -/
theorem backup_locks_destination (c : DestConn) (pages : Nat) :
    ((c.createBackup pages).1.newCursor = .error .threadingViolation) ∧
    (∀ cur ∈ (c.createBackup pages).1.cursors, cur = false) ∧
    (∀ bk : Backup, ∀ p : Int, bk.finish.step p = .error .connectionClosed) ∧
    (∀ bk : Backup, bk.finish.finish = bk.finish) := by
  refine ⟨?_, ?_, ?_, ?_⟩
  · simp [DestConn.createBackup, DestConn.newCursor]
  · intro cur hcur
    simp [DestConn.createBackup] at hcur
    exact hcur.2
  · intro bk p
    simp [Backup.finish, Backup.step]
  · intro bk
    simp [Backup.finish]

/-- C7 witness: a destination Connection with two open Cursors, backing up
five pages: the new-Cursor refusal and the closing of both Cursors, applied
concretely. -/
theorem backup_locks_destination_witness :
    (((⟨[true, true], false⟩ : DestConn).createBackup 5).1.newCursor
      = .error .threadingViolation) ∧
    (∀ cur ∈ ((⟨[true, true], false⟩ : DestConn).createBackup 5).1.cursors,
      cur = false) :=
  ⟨(backup_locks_destination ⟨[true, true], false⟩ 5).1,
   (backup_locks_destination ⟨[true, true], false⟩ 5).2.1⟩

/-! ## Signed 64-bit integer bindings (claim C9) -/

/-- Smallest value of a signed 64-bit integer. -/
def int64Min : Int := -(2 ^ 63)

/-- Largest value of a signed 64-bit integer. -/
def int64Max : Int := 2 ^ 63 - 1

/-- Whether an integer fits in a signed 64-bit integer. -/
def fitsInt64 (i : Int) : Bool :=
  decide (int64Min ≤ i ∧ i ≤ int64Max)

/-- Modelled from the spec: binding an integer value converts it to an
SQLite 64-bit integer; values outside signed 64-bit fail with
OverflowError, in-range values bind unchanged. -/
def bindInt (v : Int) : Except ErrKind Int :=
  if fitsInt64 v then .ok v else .error .overflow

/-- Modelled from the spec: inserting one integer row: the binding is
converted first, and when it fails no row is inserted (the table is
returned unchanged alongside the error). -/
def insertIntRow (table : List Int) (v : Int) : Except ErrKind Unit × List Int :=
  match bindInt v with
  | .error e => (.error e, table)
  | .ok w => (.ok (), table ++ [w])

/-- C9: binding an integer v with v ≥ 2^63 or v < −2^63 raises OverflowError
and inserts no row (the table is unchanged); the boundary values 2^63 − 1
and −2^63 bind successfully and round-trip unchanged into the table. -/
theorem int_binding_signed64 (table : List Int) (v : Int)
    (hout : 2 ^ 63 ≤ v ∨ v < -(2 ^ 63)) :
    insertIntRow table v = (.error .overflow, table) ∧
    insertIntRow table (2 ^ 63 - 1) = (.ok (), table ++ [2 ^ 63 - 1]) ∧
    insertIntRow table (-(2 ^ 63)) = (.ok (), table ++ [-(2 ^ 63)]) := by
  refine ⟨?_, ?_, ?_⟩
  · have hfit : fitsInt64 v = false := by
      simp [fitsInt64, int64Min, int64Max]
      intro hge
      rcases hout with h | h
      · omega
      · omega
    simp [insertIntRow, bindInt, hfit]
  · have hfit : fitsInt64 9223372036854775807 = true := by decide
    simp [insertIntRow, bindInt, hfit]
  · have hfit : fitsInt64 (-9223372036854775808) = true := by decide
    simp [insertIntRow, bindInt, hfit]

/-- C9 witness: the value 2^63 itself overflows on an empty table. -/
theorem int_binding_signed64_witness :
    ((2 : Int) ^ 63 ≤ 2 ^ 63 ∨ (2 : Int) ^ 63 < -(2 ^ 63)) ∧
    insertIntRow [] (2 ^ 63) = (.error .overflow, []) :=
  ⟨Or.inl le_rfl, (int_binding_signed64 [] (2 ^ 63) (Or.inl le_rfl)).1⟩

/-! ## Virtual-table insert bridge (claim C8) -/

/-- Modelled from the spec: the value a user xUpdate callback returns, as the
bridge classifies it: an integer, or anything that is not an integer. -/
inductive HostRet where
  | intVal (i : Int)
  | nonInt
  deriving DecidableEq

/-- Modelled from the spec: the xUpdate insert bridge.  The callback is
invoked with the rowid SQLite supplied (none for a null rowid) and the
fields; alongside its return classification it produces an observation of
type κ so that the call itself is visible.  With a null rowid the returned
value becomes the new rowid and must fit signed 64-bit (OverflowError
otherwise, TypeError for a non-integer); with a user-provided rowid the
returned value is ignored and the provided rowid is the result. -/
def xUpdateInsert {α κ : Type} (cb : Option Int → List α → HostRet × κ)
    (providedRowid : Option Int) (fields : List α) : Except ErrKind (Int × κ) :=
  match providedRowid with
  | none =>
    let r := cb none fields
    match r.1 with
    | .intVal i => if fitsInt64 i then .ok (i, r.2) else .error .overflow
    | .nonInt => .error .typeErr
  | some rid =>
    let r := cb (some rid) fields
    .ok (rid, r.2)

/-- C8: for a null-rowid insert the integer returned by the callback becomes the new
rowid when it fits signed 64-bit, a larger value fails with OverflowError
and a non-integer return with a type error; for an insert carrying a
user-provided rowid, the callback is invoked at exactly that rowid (its
observation is the one produced there) and its return value is ignored —
the result is the provided rowid for every callback. -/
theorem vtab_insert_bridge {α κ : Type} (cb : Option Int → List α → HostRet × κ)
    (fields : List α) (i rid : Int) (obs : κ) :
    (cb none fields = (.intVal i, obs) → fitsInt64 i = true →
      xUpdateInsert cb none fields = .ok (i, obs)) ∧
    (cb none fields = (.intVal i, obs) → fitsInt64 i = false →
      xUpdateInsert cb none fields = .error .overflow) ∧
    (cb none fields = (.nonInt, obs) →
      xUpdateInsert cb none fields = .error .typeErr) ∧
    (xUpdateInsert cb (some rid) fields = .ok (rid, (cb (some rid) fields).2)) := by
  refine ⟨?_, ?_, ?_, ?_⟩
  · intro hcb hfit
    simp [xUpdateInsert, hcb, hfit]
  · intro hcb hfit
    simp [xUpdateInsert, hcb, hfit]
  · intro hcb
    simp [xUpdateInsert, hcb]
  · simp [xUpdateInsert]

/-- C8 witness: the callbacks of the test-suite: returning the largest signed
64-bit integer succeeds with that rowid, returning a too-big integer
overflows, returning a non-integer is a type error, and a provided rowid of
−12 is the result with the return value ignored. -/
theorem vtab_insert_bridge_witness :
    (xUpdateInsert (fun _ _ => (HostRet.intVal 9223372036854775807, 0)) none ([] : List Int)
      = .ok (9223372036854775807, 0)) ∧
    (xUpdateInsert (fun _ _ => (HostRet.intVal (-922337203685477580799), 0)) none ([] : List Int)
      = .error .overflow) ∧
    (xUpdateInsert (fun _ _ => (HostRet.nonInt, 0)) none ([] : List Int)
      = .error .typeErr) ∧
    (xUpdateInsert (fun r _ => (HostRet.nonInt, r)) (some (-12)) ([] : List Int)
      = .ok (-12, some (-12))) := by
  refine ⟨?_, ?_, ?_, ?_⟩
  · exact (vtab_insert_bridge (fun _ _ => (HostRet.intVal 9223372036854775807, 0))
      [] 9223372036854775807 0 0).1 rfl (by decide)
  · exact (vtab_insert_bridge (fun _ _ => (HostRet.intVal (-922337203685477580799), 0))
      [] (-922337203685477580799) 0 0).2.1 rfl (by decide)
  · exact (vtab_insert_bridge (fun _ _ => (HostRet.nonInt, (0 : Nat)))
      [] 0 0 0).2.2.1 rfl
  · exact (vtab_insert_bridge (fun r _ => (HostRet.nonInt, r))
      [] 0 (-12) none).2.2.2

/-! ## Positional bindings arity (claim C4) -/

/-- Modelled from the spec: a bound host value (the concrete carrier does not
matter for the arity contract; integers stand in for any convertible
value). -/
abbrev BindVal : Type := Int

/-- Modelled from the spec: resolving a positional-sequence binding against a
statement with n `?` parameters: the sequence must have exactly n elements
(BindingsError otherwise, including absent bindings when n > 0), and the
values are bound in order. -/
def bindSequence (n : Nat) (bindings : Option (List BindVal)) :
    Except ErrKind (List BindVal) :=
  match bindings with
  | none => if n = 0 then .ok [] else .error .bindingsErr
  | some vs => if vs.length = n then .ok vs else .error .bindingsErr

/-- Modelled from the spec: executing a single statement with n `?`
parameters under a positional binding: on success the statement runs exactly
once with the values bound in order (the result lists the bound row of each
execution). -/
def executeBound (n : Nat) (bindings : Option (List BindVal)) :
    Except ErrKind (List (List BindVal)) :=
  match bindSequence n bindings with
  | .error e => .error e
  | .ok vs => .ok [vs]

/-- C4: a positional sequence of length m against SQL with n `?` parameters
raises BindingsError whenever m ≠ n, as does an absent binding with n > 0;
when m = n the statement executes with the values bound in order, and the
empty sequence against zero parameters executes exactly once. -/
theorem bindings_arity (n : Nat) (vs : List BindVal) :
    (vs.length ≠ n → executeBound n (some vs) = .error .bindingsErr) ∧
    (0 < n → executeBound n none = .error .bindingsErr) ∧
    (vs.length = n → executeBound n (some vs) = .ok [vs]) ∧
    (executeBound 0 (some []) = .ok [[]]) := by
  refine ⟨?_, ?_, ?_, ?_⟩
  · intro hne
    simp [executeBound, bindSequence, hne]
  · intro hpos
    have : n ≠ 0 := Nat.pos_iff_ne_zero.mp hpos
    simp [executeBound, bindSequence, this]
  · intro heq
    simp [executeBound, bindSequence, heq]
  · simp [executeBound, bindSequence]

/-- C4 witness: one value against two parameters is a BindingsError; two
values against two parameters bind in order and execute once. -/
theorem bindings_arity_witness :
    (executeBound 2 (some [5]) = .error .bindingsErr) ∧
    (executeBound 2 (some [5, 7]) = .ok [[5, 7]]) := by
  refine ⟨?_, ?_⟩
  · exact (bindings_arity 2 [5]).1 (by decide)
  · exact (bindings_arity 2 [5, 7]).2.2.1 rfl

/-! ## Cursor multi-statement execution (claim C3) -/

/-- Modelled from the spec: the state of a Cursor: the log of statements
executed so far, the trailing statements of the current SQL string that have
not yet been prepared, and the unread row count of the current statement. -/
structure CursorState where
  executedLog : List String
  pending : List String
  unread : Nat
  deriving DecidableEq

/-- Modelled from the spec: running the statements of one SQL string in
sequence: each statement is prepared and stepped in turn (appended to the
log); when a statement yields rows, iteration pauses there and the
remaining statements stay pending. -/
def runStmts (rowsOf : String → Nat) (log : List String) :
    List String → List String × List String × Nat
  | [] => (log, [], 0)
  | s :: rest =>
    if rowsOf s = 0 then
      runStmts rowsOf (log ++ [s]) rest
    else
      (log ++ [s], rest, rowsOf s)

/-- Modelled from the spec: Cursor.execute on a new SQL string: starting a
new statement while the previous one is mid-iteration — unread rows remain
or trailing statements of the earlier string are still pending — fails with
IncompleteExecutionError and executes nothing. -/
def CursorState.execute (rowsOf : String → Nat) (c : CursorState)
    (stmts : List String) : Except ErrKind CursorState :=
  if c.unread ≠ 0 ∨ c.pending ≠ [] then
    .error .incompleteExecution
  else
    match runStmts rowsOf c.executedLog stmts with
    | (log, pend, un) => .ok ⟨log, pend, un⟩

/-- C3: executing a multi-statement string whose first statement yields rows
leaves exactly that first statement in the log and the trailing statements
pending; from that mid-iteration state, every further execute fails with
IncompleteExecutionError — so (the error being state-free) the trailing
statements of the earlier string are never executed. -/
theorem cursor_incomplete_execution (rowsOf : String → Nat) (c0 : CursorState)
    (s1 : String) (rest : List String)
    (hfresh : c0.pending = [] ∧ c0.unread = 0)
    (hrows : rowsOf s1 ≠ 0) :
    (c0.execute rowsOf (s1 :: rest) =
      .ok ⟨c0.executedLog ++ [s1], rest, rowsOf s1⟩) ∧
    (∀ c : CursorState, c.unread ≠ 0 →
      ∀ stmts, c.execute rowsOf stmts = .error .incompleteExecution) ∧
    (rest ≠ [] →
      ∀ stmts, CursorState.execute rowsOf ⟨c0.executedLog ++ [s1], rest, rowsOf s1⟩ stmts
        = .error .incompleteExecution) := by
  refine ⟨?_, ?_, ?_⟩
  · unfold CursorState.execute
    rw [if_neg (by simp [hfresh.1, hfresh.2])]
    simp [runStmts, hrows]
  · intro c hun stmts
    unfold CursorState.execute
    rw [if_pos (Or.inl hun)]
  · intro hrest stmts
    unfold CursorState.execute
    rw [if_pos (Or.inl hrows)]

/-- C3 witness: the scenario of the spec — a string of two selects, each
yielding one row: the second is left pending and the next execute fails. -/
theorem cursor_incomplete_execution_witness :
    (((⟨[], [], 0⟩ : CursorState).pending = [] ∧
      (⟨[], [], 0⟩ : CursorState).unread = 0) ∧
     (fun _ : String => 1) "select 3" ≠ 0) ∧
    CursorState.execute (fun _ => 1) ⟨[], [], 0⟩ ["select 3", "select 4"]
      = .ok ⟨["select 3"], ["select 4"], 1⟩ := by
  refine ⟨⟨⟨rfl, rfl⟩, by decide⟩, ?_⟩
  exact (cursor_incomplete_execution (fun _ => 1) ⟨[], [], 0⟩ "select 3" ["select 4"]
    ⟨rfl, rfl⟩ (by decide)).1

/-! ## Partial effects of a failing multi-statement script (claim C10) -/

/-- Modelled from the spec: a statement of a small script language covering
the shapes the claim uses: DDL creating a table, an insert into a table, a
statement whose bindings have the wrong arity, and a statement that fails to
prepare. -/
inductive MiniStmt where
  | createTable (name : String)
  | insertInto (name : String) (v : Int)
  | badBindings
  | malformedSql
  deriving DecidableEq

/-- A database as an association of table names to row lists. -/
abbrev MiniDB : Type := List (String × List Int)

/-- Modelled from the spec: applying a single statement to the database:
creating an existing table or inserting into a missing one fails with
SQLError, wrong binding arity with BindingsError, a malformed statement with
SQLError; a successful statement updates the database. -/
def applyStmt (db : MiniDB) : MiniStmt → Except ErrKind MiniDB
  | .createTable n =>
    if db.any (fun t => t.1 = n) then .error .sqlErr
    else .ok (db ++ [(n, [])])
  | .insertInto n v =>
    if db.any (fun t => t.1 = n) then
      .ok (db.map (fun t => if t.1 = n then (t.1, t.2 ++ [v]) else t))
    else .error .sqlErr
  | .badBindings => .error .bindingsErr
  | .malformedSql => .error .sqlErr

/-- Modelled from the spec: statements of one call are prepared and stepped
in sequence; the effect of each completed statement is applied immediately, and
the first failure stops the run, returning its error together with the
database as the completed statements left it (no rollback). -/
def runScript (db : MiniDB) : List MiniStmt → Except ErrKind Unit × MiniDB
  | [] => (.ok (), db)
  | s :: rest =>
    match applyStmt db s with
    | .error e => (.error e, db)
    | .ok db2 => runScript db2 rest

/-- C10: when a script fails partway — the statements before some failing
statement all succeed, and that statement fails — the run returns the
failure, the effects of the completed earlier statements all remain (the
resulting database is exactly the one they produced), and the trailing
statements are never applied. -/
theorem script_partial_effects (db db1 : MiniDB) (done rest : List MiniStmt)
    (bad : MiniStmt) (e : ErrKind)
    (hdone : runScript db done = (.ok (), db1))
    (hbad : applyStmt db1 bad = .error e) :
    runScript db (done ++ bad :: rest) = (.error e, db1) := by
  induction done generalizing db with
  | nil =>
    simp [runScript] at hdone
    subst hdone
    simp [runScript, hbad]
  | cons s ss ih =>
    simp only [runScript] at hdone
    match hs : applyStmt db s with
    | .error e2 =>
      rw [hs] at hdone
      simp at hdone
    | .ok db2 =>
      rw [hs] at hdone
      simp only [List.cons_append, runScript, hs]
      exact ih db2 hdone

/-- C10 witness: the test-suite script — create table bar, then a malformed
statement, then create table bam: bar keeps existing, the error is
reported, and bam is never created. -/
theorem script_partial_effects_witness :
    (runScript [] [.createTable "bar"] = (.ok (), [("bar", [])]) ∧
     applyStmt [("bar", [])] .malformedSql = .error .sqlErr) ∧
    runScript [] [.createTable "bar", .malformedSql, .createTable "bam"]
      = (.error .sqlErr, [("bar", [])]) := by
  refine ⟨⟨rfl, rfl⟩, ?_⟩
  exact script_partial_effects [] [("bar", [])] [.createTable "bar"]
    [.createTable "bam"] .malformedSql .sqlErr rfl rfl

/-! ## Statement cache statistics (claim C2) -/

/-- Modelled from the spec: the bounded statement cache keyed by SQL text,
with its monotonic hit and miss counters.  Entries are kept most-recent
first; eviction removes the least-recently-used entry when an insert
exceeds the capacity.  (The in-use-count refinement of eviction matters only
when statements are held across the insert, which no counted workload here
does.) -/
structure StmtCache where
  capacity : Nat
  entries : List String
  hits : Nat
  misses : Nat

/-- Modelled from the spec: looking a cacheable SQL text up: a hit bumps the
hit counter and the recency of the entry; a miss bumps the miss counter and
inserts the text, evicting the least-recently-used entry when the capacity
is exceeded (with capacity zero nothing is ever retained). -/
def StmtCache.get (c : StmtCache) (sql : String) : StmtCache :=
  if sql ∈ c.entries then
    { c with hits := c.hits + 1, entries := sql :: c.entries.erase sql }
  else
    { c with misses := c.misses + 1,
             entries :=
               if c.capacity < c.entries.length + 1 then
                 (sql :: c.entries).dropLast
               else
                 sql :: c.entries }

/-- Modelled from the spec: running a workload of cacheable SQL texts
through the cache in order. -/
def StmtCache.run (c : StmtCache) (trace : List String) : StmtCache :=
  trace.foldl StmtCache.get c

/-- The texts of a workload that are new relative to the current cache
entries, one occurrence each. -/
def freshTexts (entries trace : List String) : List String :=
  trace.dedup.filter (fun t => decide (t ∉ entries))

/-- Characterization of a cache hit. -/
theorem StmtCache.get_mem (c : StmtCache) (t : String) (h : t ∈ c.entries) :
    c.get t = ⟨c.capacity, t :: c.entries.erase t, c.hits + 1, c.misses⟩ := by
  simp [StmtCache.get, h]

/-- Characterization of a cache miss under capacity. -/
theorem StmtCache.get_not_mem (c : StmtCache) (t : String) (h : t ∉ c.entries)
    (hcap : c.entries.length < c.capacity) :
    c.get t = ⟨c.capacity, t :: c.entries, c.hits, c.misses + 1⟩ := by
  have : ¬ (c.capacity < c.entries.length + 1) := by omega
  simp [StmtCache.get, h, this]

/-- Characterization of a miss on a zero-capacity cache. -/
theorem StmtCache.get_zero (c : StmtCache) (t : String) (hcap : c.capacity = 0)
    (hent : c.entries = []) :
    c.get t = ⟨c.capacity, [], c.hits, c.misses + 1⟩ := by
  simp [StmtCache.get, hent, hcap]

/-- Unfolding one step of a workload run. -/
theorem StmtCache.run_cons (c : StmtCache) (t : String) (rest : List String) :
    c.run (t :: rest) = (c.get t).run rest := rfl

/-- Running a workload that (together with the current entries) fits in the
capacity: every first occurrence of a new text is a miss, every other lookup
is a hit, and the entries end up as exactly the old ones plus the new
texts. -/
theorem StmtCache.run_spec (trace : List String) :
    ∀ c : StmtCache, c.entries.Nodup →
      c.entries.length + (freshTexts c.entries trace).length ≤ c.capacity →
      (c.run trace).misses = c.misses + (freshTexts c.entries trace).length ∧
      (c.run trace).hits + (freshTexts c.entries trace).length
        = c.hits + trace.length ∧
      (c.run trace).entries.Perm (freshTexts c.entries trace ++ c.entries) := by
  induction trace with
  | nil =>
    intro c _ _
    simp [StmtCache.run, freshTexts]
  | cons t rest ih =>
    intro c hnd hcap
    by_cases hmem : t ∈ c.entries
    · -- cache hit: recency reordering only
      have hget := c.get_mem t hmem
      have hperm1 : c.entries.Perm (t :: c.entries.erase t) :=
        List.perm_cons_erase hmem
      have hnd1 : (t :: c.entries.erase t).Nodup := hperm1.nodup hnd
      have hfresh1 : freshTexts (t :: c.entries.erase t) rest
          = freshTexts c.entries rest := by
        unfold freshTexts
        exact List.filter_congr (fun x _ => by
          simp only [decide_eq_decide]
          rw [hperm1.mem_iff])
      have hfresh0 : freshTexts c.entries (t :: rest)
          = freshTexts c.entries rest := by
        unfold freshTexts
        by_cases htr : t ∈ rest
        · rw [List.dedup_cons_of_mem htr]
        · rw [List.dedup_cons_of_not_mem htr]
          simp [hmem]
      have hlen1 : (t :: c.entries.erase t).length = c.entries.length :=
        hperm1.length_eq.symm
      obtain ⟨hm, hh, hp⟩ :=
        ih ⟨c.capacity, t :: c.entries.erase t, c.hits + 1, c.misses⟩ hnd1
          (by simp only [hfresh1]; rw [show (⟨c.capacity, t :: c.entries.erase t,
            c.hits + 1, c.misses⟩ : StmtCache).entries.length = c.entries.length
            from hlen1]; rw [← hfresh0] at *; exact hcap)
      simp only at hm hh hp
      rw [hfresh1] at hm hh hp
      rw [StmtCache.run_cons, hget]
      refine ⟨?_, ?_, ?_⟩
      · rw [hm, hfresh0]
      · rw [hfresh0, List.length_cons]
        omega
      · rw [hfresh0]
        exact hp.trans (List.Perm.append_left _ hperm1.symm)
    · -- cache miss: the text is inserted, no eviction under the capacity bound
      have htfresh : t ∈ freshTexts c.entries (t :: rest) := by
        unfold freshTexts
        rw [List.mem_filter]
        refine ⟨List.mem_dedup.mpr (List.mem_cons_self t rest), by simpa using hmem⟩
      have hlenpos : 1 ≤ (freshTexts c.entries (t :: rest)).length :=
        List.length_pos.mpr (List.ne_nil_of_mem htfresh)
      have hget := c.get_not_mem t hmem (by omega)
      have hnd1 : (t :: c.entries).Nodup := List.nodup_cons.mpr ⟨hmem, hnd⟩
      -- relate the fresh texts before and after inserting t
      have hfresh1 : freshTexts (t :: c.entries) rest
          = (freshTexts c.entries rest).filter (fun x => decide (x ≠ t)) := by
        unfold freshTexts
        rw [List.filter_filter]
        exact List.filter_congr (fun x _ => by
          by_cases hxt : x = t <;> by_cases hxc : x ∈ c.entries <;>
            simp [hxt, hxc])
      have hperm0 : (freshTexts c.entries (t :: rest)).Perm
          (t :: freshTexts (t :: c.entries) rest) := by
        rw [hfresh1]
        unfold freshTexts
        by_cases htr : t ∈ rest
        · rw [List.dedup_cons_of_mem htr]
          have hndf : (rest.dedup.filter (fun x => decide (x ∉ c.entries))).Nodup :=
            (List.nodup_dedup rest).filter _
          have htf : t ∈ rest.dedup.filter (fun x => decide (x ∉ c.entries)) := by
            rw [List.mem_filter]
            exact ⟨List.mem_dedup.mpr htr, by simpa using hmem⟩
          have herase : (rest.dedup.filter (fun x => decide (x ∉ c.entries))).erase t
              = (rest.dedup.filter (fun x => decide (x ∉ c.entries))).filter
                  (fun x => decide (x ≠ t)) := by
            rw [hndf.erase_eq_filter t]
            exact List.filter_congr (fun x _ => by
              by_cases hxt : x = t <;> simp [hxt])
          rw [← herase]
          exact List.perm_cons_erase htf
        · rw [List.dedup_cons_of_not_mem htr]
          have ht1 : (decide (t ∉ c.entries)) = true := by simpa using hmem
          rw [List.filter_cons, if_pos ht1]
          have hsame : (rest.dedup.filter (fun x => decide (x ∉ c.entries))).filter
                (fun x => decide (x ≠ t))
              = rest.dedup.filter (fun x => decide (x ∉ c.entries)) := by
            apply List.filter_congr ?_ |>.trans (List.filter_true _)
            intro x hx
            have hxr : x ∈ rest.dedup := List.mem_filter.mp hx |>.1
            have : x ≠ t := by
              intro hxt
              exact htr (List.mem_dedup.mp (hxt ▸ hxr))
            simp [this]
          rw [hsame]
      have hlen0 : (freshTexts c.entries (t :: rest)).length
          = (freshTexts (t :: c.entries) rest).length + 1 := by
        have := hperm0.length_eq
        simpa using this
      obtain ⟨hm, hh, hp⟩ :=
        ih ⟨c.capacity, t :: c.entries, c.hits, c.misses + 1⟩ hnd1
          (by simp only [List.length_cons]; omega)
      simp only at hm hh hp
      rw [StmtCache.run_cons, hget]
      refine ⟨?_, ?_, ?_⟩
      · rw [hm]
        omega
      · rw [List.length_cons]
        omega
      · refine hp.trans ?_
        have hswap : (freshTexts (t :: c.entries) rest ++ [t]).Perm
            (freshTexts c.entries (t :: rest)) :=
          (List.perm_append_comm).trans (hperm0.symm)
        have heq : freshTexts (t :: c.entries) rest ++ t :: c.entries
            = (freshTexts (t :: c.entries) rest ++ [t]) ++ c.entries := by
          simp
        rw [heq]
        exact List.Perm.append_right _ hswap

/-- With capacity zero nothing is retained and every lookup is a miss. -/
theorem StmtCache.run_zero_capacity (trace : List String) :
    ∀ c : StmtCache, c.capacity = 0 → c.entries = [] →
      (c.run trace).misses = c.misses + trace.length ∧
      (c.run trace).hits = c.hits := by
  induction trace with
  | nil =>
    intro c _ _
    simp [StmtCache.run]
  | cons t rest ih =>
    intro c hcap hent
    have hget := c.get_zero t hcap hent
    obtain ⟨hm, hh⟩ := ih ⟨c.capacity, [], c.hits, c.misses + 1⟩ hcap rfl
    simp only at hm hh
    rw [StmtCache.run_cons, hget]
    refine ⟨?_, ?_⟩
    · rw [hm, List.length_cons]
      omega
    · rw [hh]

/-- A workload in which every occurring text occurs exactly k times has
length (number of distinct texts) * k. -/
theorem length_of_uniform_counts (trace : List String) (k : Nat)
    (hk : ∀ t ∈ trace, trace.count t = k) :
    trace.length = trace.dedup.length * k := by
  calc trace.length
      = Multiset.card (trace : Multiset String) := by simp
    _ = ∑ a ∈ (trace : Multiset String).toFinset,
          Multiset.count a (trace : Multiset String) :=
        (Multiset.toFinset_sum_count_eq _).symm
    _ = ∑ _a ∈ (trace : Multiset String).toFinset, k := by
        refine Finset.sum_congr rfl ?_
        intro a ha
        rw [Multiset.coe_count]
        exact hk a (by simpa using ha)
    _ = (trace : Multiset String).toFinset.card * k := by
        rw [Finset.sum_const, smul_eq_mul]
    _ = trace.dedup.length * k := by
        rw [show (trace : Multiset String).toFinset = trace.toFinset from rfl,
          List.card_toFinset]

/-- C2: pushing a workload of N distinct cacheable texts, each executed k
times, through an initially empty cache of capacity C ≥ N yields misses = N
and hits = N*(k−1), so hits + misses = N*k; and through a zero-capacity
cache every execution of any workload is a miss and none is a hit. -/
theorem stmt_cache_counts (C k : Nat) (trace : List String)
    (hN : trace.dedup.length ≤ C)
    (hk : ∀ t ∈ trace, trace.count t = k) :
    ((StmtCache.run ⟨C, [], 0, 0⟩ trace).misses = trace.dedup.length ∧
     (StmtCache.run ⟨C, [], 0, 0⟩ trace).hits = trace.dedup.length * (k - 1) ∧
     (StmtCache.run ⟨C, [], 0, 0⟩ trace).hits
       + (StmtCache.run ⟨C, [], 0, 0⟩ trace).misses = trace.dedup.length * k) ∧
    (∀ anyTrace : List String,
      (StmtCache.run ⟨0, [], 0, 0⟩ anyTrace).misses = anyTrace.length ∧
      (StmtCache.run ⟨0, [], 0, 0⟩ anyTrace).hits = 0) := by
  have hfresh : freshTexts [] trace = trace.dedup := by
    unfold freshTexts
    exact (List.filter_congr (fun x _ => by simp)).trans (List.filter_true _)
  obtain ⟨hm, hh, _⟩ := StmtCache.run_spec trace ⟨C, [], 0, 0⟩
    List.nodup_nil (by simpa [hfresh] using hN)
  rw [hfresh] at hm hh
  simp only at hm hh
  have hlen := length_of_uniform_counts trace k hk
  constructor
  · refine ⟨by simpa using hm, ?_, ?_⟩
    · cases k with
      | zero =>
        have htrace : trace = [] := by
          cases trace with
          | nil => rfl
          | cons a l =>
            have := hk a (List.mem_cons_self a l)
            have hpos : 0 < (a :: l).count a :=
              List.count_pos_iff.mpr (List.mem_cons_self a l)
            omega
        subst htrace
        simp [StmtCache.run]
      | succ k2 =>
        have : trace.length = trace.dedup.length * k2 + trace.dedup.length := by
          rw [hlen, Nat.mul_succ]
        simp only [Nat.succ_sub_one]
        omega
    · omega
  · intro anyTrace
    obtain ⟨hm0, hh0⟩ := StmtCache.run_zero_capacity anyTrace ⟨0, [], 0, 0⟩ rfl rfl
    exact ⟨by simpa using hm0, by simpa using hh0⟩

/-- C2 witness: two texts run twice each through a cache of capacity 3:
two misses and two hits, totalling four lookups. -/
theorem stmt_cache_counts_witness :
    (["a", "b", "a", "b"].dedup.length ≤ 3 ∧
     ∀ t ∈ ["a", "b", "a", "b"], List.count t ["a", "b", "a", "b"] = 2) ∧
    (StmtCache.run ⟨3, [], 0, 0⟩ ["a", "b", "a", "b"]).misses = 2 ∧
    (StmtCache.run ⟨3, [], 0, 0⟩ ["a", "b", "a", "b"]).hits = 2 := by
  have hN : (["a", "b", "a", "b"].dedup.length ≤ 3) := by decide
  have hk : ∀ t ∈ ["a", "b", "a", "b"], List.count t ["a", "b", "a", "b"] = 2 := by
    decide
  obtain ⟨⟨hm, hh, _⟩, _⟩ := stmt_cache_counts 3 2 ["a", "b", "a", "b"] hN hk
  refine ⟨⟨hN, hk⟩, ?_, ?_⟩
  · rw [hm]; decide
  · rw [hh]; decide

/-! ## format_sql_value (claim C5) -/

/-- The single-quote character of SQL string literals. -/
def quoteChar : Char := Char.ofNat 39

/-- The NUL character, which cannot appear inside an SQL string literal. -/
def nulChar : Char := Char.ofNat 0

/-- The minus sign of a negative decimal rendering. -/
def minusChar : Char := Char.ofNat 45

/-- Modelled from the spec: the concatenation glue a NUL byte is encoded as
inside a text literal: closing the current literal, concatenating a one-byte
zero blob, and opening the next literal. -/
def nulSep : List Char :=
  ['|', '|', 'X', quoteChar, '0', '0', quoteChar, '|', '|']

/-- Escaping one character of a text chunk: an embedded quote is doubled,
everything else is kept. -/
def escChar (c : Char) : List Char :=
  if c = quoteChar then [quoteChar, quoteChar] else [c]

/-- Escaping a whole chunk. -/
def escape (l : List Char) : List Char :=
  (l.map escChar).flatten

/-- A chunk rendered as a single-quoted literal with embedded quotes
doubled. -/
def quoteChunk (l : List Char) : List Char :=
  quoteChar :: (escape l ++ [quoteChar])

/-- Splitting a text on its NUL bytes; always returns at least one (possibly
empty) chunk. -/
def splitNul : List Char → List (List Char)
  | [] => [[]]
  | c :: rest =>
    if c = nulChar then
      [] :: splitNul rest
    else
      match splitNul rest with
      | [] => [[c]]
      | chunk :: more => (c :: chunk) :: more

/-- Joining chunks with a separator. -/
def joinSep (sep : List Char) : List (List Char) → List Char
  | [] => []
  | [x] => x
  | x :: y :: t => x ++ sep ++ joinSep sep (y :: t)

/-- Modelled from the spec: the text rendering of format_sql_value: the text
single-quoted with every embedded quote doubled and every NUL byte encoded
as an X zero-byte concatenation between the surrounding literals. -/
def textLiteral (s : String) : String :=
  String.mk (joinSep nulSep ((splitNul s.data).map quoteChunk))

/-- The decimal digit character for a value below ten. -/
def digitChar (n : Nat) : Char := Char.ofNat (48 + n)

/-- The decimal digits of a natural number, most significant first. -/
def natDigits (n : Nat) : List Char :=
  if n < 10 then
    [digitChar n]
  else
    natDigits (n / 10) ++ [digitChar (n % 10)]
decreasing_by exact Nat.div_lt_self (by omega) (by omega)

/-- Modelled from the spec: the decimal rendering of an integer. -/
def intRender (i : Int) : String :=
  if i < 0 then
    String.mk (minusChar :: natDigits i.natAbs)
  else
    String.mk (natDigits i.natAbs)

/-- The uppercase hexadecimal digit character for a value below sixteen. -/
def hexDigitChar (n : Nat) : Char :=
  Char.ofNat (if n < 10 then 48 + n else 55 + n)

/-- The two hexadecimal digits of a byte. -/
def byteHex (b : Nat) : List Char :=
  [hexDigitChar (b / 16), hexDigitChar (b % 16)]

/-- Modelled from the spec: the blob rendering of format_sql_value: X
followed by the quoted hexadecimal digits of the bytes. -/
def blobLiteral (bs : List Nat) : String :=
  String.mk ('X' :: quoteChar :: ((bs.map byteHex).flatten ++ [quoteChar]))

/-- Modelled from the spec: a host value presented to format_sql_value:
one of the five SQLite types — null, int, float (its IEEE decimal rendering
kept abstract as the carried string), text, blob — or a value of any other
type.  Bytes of a blob are naturals below 256. -/
inductive HostValue where
  | null
  | int (i : Int)
  | real (rendering : String)
  | text (s : String)
  | blob (bytes : List Nat)
  | other

/-- Modelled from the spec: format_sql_value: NULL for null, the decimal
rendering for int and float, the quoted-and-NUL-encoded literal for text,
the X hexadecimal literal for blob, and TypeError for any other input
type. -/
def format_sql_value : HostValue → Except ErrKind String
  | .null => .ok "NULL"
  | .int i => .ok (intRender i)
  | .real r => .ok r
  | .text s => .ok (textLiteral s)
  | .blob bs => .ok (blobLiteral bs)
  | .other => .error .typeErr

/-! Independent decoders, reading the produced literals back the way SQLite
would; the round-trip theorems below verify the renderings through them. -/

/-- Parse the inside of a single-quoted literal up to its closing quote:
doubled quotes decode to one quote; returns the decoded content and the
input after the closing quote. -/
def parseInner : List Char → Option (List Char × List Char)
  | [] => none
  | [c] => if c = quoteChar then some ([], []) else none
  | c :: c2 :: rest =>
    if c = quoteChar then
      if c2 = quoteChar then
        (parseInner rest).map (fun p => (quoteChar :: p.1, p.2))
      else
        some ([], c2 :: rest)
    else
      (parseInner (c2 :: rest)).map (fun p => (c :: p.1, p.2))

/-- Parse one single-quoted literal from the front of the input. -/
def parseLit : List Char → Option (List Char × List Char)
  | [] => none
  | c :: rest => if c = quoteChar then parseInner rest else none

/-- Consume the NUL-encoding separator from the front of the input. -/
def consumeSep (l : List Char) : Option (List Char) :=
  if l.take nulSep.length = nulSep then some (l.drop nulSep.length) else none

/-- Parse a concatenation of quoted literals glued by the NUL separator,
decoding each separator back to a NUL byte (fuel bounds the number of
literals). -/
def parseConcat : Nat → List Char → Option (List Char)
  | 0, _ => none
  | fuel + 1, l =>
    match parseLit l with
    | none => none
    | some (content, rest) =>
      if rest.isEmpty then
        some content
      else
        match consumeSep rest with
        | none => none
        | some rest2 =>
          (parseConcat fuel rest2).map (fun more => content ++ nulChar :: more)

/-- Decode a rendered text literal back to the text it encodes. -/
def sqlTextDecode (s : String) : Option String :=
  (parseConcat (s.data.length + 1) s.data).map (fun l => String.mk l)

/-- The numeric value of a decimal digit character. -/
def digitVal (c : Char) : Nat := c.toNat - 48

/-- The value of a most-significant-first decimal digit list. -/
def valOfDigits (l : List Char) : Nat :=
  l.foldl (fun a c => 10 * a + digitVal c) 0

/-- Decode a decimal rendering (with optional leading minus) back to an
integer. -/
def readIntChars : List Char → Int
  | [] => 0
  | c :: rest =>
    if c = minusChar then -(valOfDigits rest : Int) else (valOfDigits (c :: rest) : Int)

/-- The numeric value of an uppercase hexadecimal digit character. -/
def hexVal (c : Char) : Nat :=
  if 65 ≤ c.toNat then c.toNat - 55 else c.toNat - 48

/-- Decode pairs of hexadecimal digit characters back to bytes. -/
def decodeHexPairs : List Char → List Nat
  | a :: b :: rest => (16 * hexVal a + hexVal b) :: decodeHexPairs rest
  | _ => []

/-- Decode a rendered blob literal back to its bytes. -/
def blobDecode (s : String) : List Nat :=
  decodeHexPairs ((s.data.drop 2).dropLast)

/-! Round-trip proofs for the decimal rendering. -/

/-- A digit character decodes back to its digit. -/
theorem digitVal_digitChar (n : Nat) (h : n < 10) : digitVal (digitChar n) = n := by
  interval_cases n <;> decide

/-- A digit character is not the minus sign. -/
theorem digitChar_ne_minus (n : Nat) (h : n < 10) : digitChar n ≠ minusChar := by
  interval_cases n <;> decide

/-- Appending one digit multiplies the decoded value by ten and adds the
digit. -/
theorem valOfDigits_append_single (l : List Char) (c : Char) :
    valOfDigits (l ++ [c]) = 10 * valOfDigits l + digitVal c := by
  simp [valOfDigits, List.foldl_append]

/-- The decimal digits of a natural number decode back to it. -/
theorem valOfDigits_natDigits (n : Nat) : valOfDigits (natDigits n) = n := by
  induction n using Nat.strong_induction_on with
  | _ n ih =>
    rw [natDigits]
    by_cases h : n < 10
    · rw [if_pos h]
      simp [valOfDigits, digitVal_digitChar n h]
    · rw [if_neg h]
      rw [valOfDigits_append_single]
      rw [ih (n / 10) (Nat.div_lt_self (by omega) (by omega))]
      rw [digitVal_digitChar (n % 10) (Nat.mod_lt n (by omega))]
      omega

/-- A decimal rendering is never empty. -/
theorem natDigits_ne_nil (n : Nat) : natDigits n ≠ [] := by
  rw [natDigits]
  by_cases h : n < 10 <;> simp [h]

/-- Every character of a decimal rendering is a digit character. -/
theorem natDigits_all_digits (n : Nat) :
    ∀ c ∈ natDigits n, ∃ d, d < 10 ∧ c = digitChar d := by
  induction n using Nat.strong_induction_on with
  | _ n ih =>
    rw [natDigits]
    by_cases h : n < 10
    · rw [if_pos h]
      intro c hc
      simp at hc
      exact ⟨n, h, hc⟩
    · rw [if_neg h]
      intro c hc
      rw [List.mem_append] at hc
      rcases hc with hc | hc
      · exact ih (n / 10) (Nat.div_lt_self (by omega) (by omega)) c hc
      · simp at hc
        exact ⟨n % 10, Nat.mod_lt n (by omega), hc⟩

/-- The decimal rendering of an integer decodes back to it. -/
theorem readIntChars_intRender (i : Int) : readIntChars (intRender i).data = i := by
  by_cases h : i < 0
  · rw [intRender, if_pos h]
    show readIntChars (minusChar :: natDigits i.natAbs) = i
    rw [readIntChars, if_pos rfl, valOfDigits_natDigits]
    omega
  · rw [intRender, if_neg h]
    show readIntChars (natDigits i.natAbs) = i
    cases hnd : natDigits i.natAbs with
    | nil => exact absurd hnd (natDigits_ne_nil _)
    | cons c rest =>
      obtain ⟨d, hd, hcd⟩ := natDigits_all_digits i.natAbs c
        (by rw [hnd]; exact List.mem_cons_self c rest)
      rw [readIntChars, if_neg (by rw [hcd]; exact digitChar_ne_minus d hd)]
      rw [← hnd, valOfDigits_natDigits]
      omega

/-! Round-trip proofs for the blob rendering. -/

/-- A hexadecimal digit character decodes back to its value. -/
theorem hexVal_hexDigitChar (n : Nat) (h : n < 16) : hexVal (hexDigitChar n) = n := by
  interval_cases n <;> decide

/-- The hexadecimal digit pairs of a byte list decode back to it. -/
theorem decodeHexPairs_bytes (bs : List Nat) (h : ∀ b ∈ bs, b < 256) :
    decodeHexPairs ((bs.map byteHex).flatten) = bs := by
  induction bs with
  | nil => rfl
  | cons b rest ih =>
    have hb : b < 256 := h b (List.mem_cons_self b rest)
    have hrest : ∀ x ∈ rest, x < 256 := fun x hx => h x (List.mem_cons_of_mem b hx)
    show decodeHexPairs (byteHex b ++ (rest.map byteHex).flatten) = b :: rest
    rw [byteHex]
    show decodeHexPairs (hexDigitChar (b / 16) :: hexDigitChar (b % 16)
      :: (rest.map byteHex).flatten) = b :: rest
    rw [decodeHexPairs]
    rw [hexVal_hexDigitChar (b / 16) (by omega), hexVal_hexDigitChar (b % 16) (by omega)]
    rw [ih hrest]
    congr 1
    omega

/-- A rendered blob literal decodes back to its bytes. -/
theorem blobDecode_blobLiteral (bs : List Nat) (h : ∀ b ∈ bs, b < 256) :
    blobDecode (blobLiteral bs) = bs := by
  rw [blobDecode]
  show decodeHexPairs ((('X' :: quoteChar :: ((bs.map byteHex).flatten
    ++ [quoteChar])).drop 2).dropLast) = bs
  rw [List.drop_succ_cons, List.drop_succ_cons, List.drop_zero]
  rw [List.dropLast_concat]
  exact decodeHexPairs_bytes bs h

/-! Round-trip proofs for the text rendering. -/

/-- Splitting on NUL always yields at least one chunk. -/
theorem splitNul_ne_nil (l : List Char) : splitNul l ≠ [] := by
  cases l with
  | nil => simp [splitNul]
  | cons c rest =>
    rw [splitNul]
    by_cases h : c = nulChar
    · simp [h]
    · rw [if_neg h]
      cases splitNul rest <;> simp

/-- A character prepended to the first chunk is prepended to the join. -/
theorem joinSep_cons_chunk (sep : List Char) (c : Char) (ch : List Char)
    (more : List (List Char)) :
    joinSep sep ((c :: ch) :: more) = c :: joinSep sep (ch :: more) := by
  cases more <;> simp [joinSep]

/-- Joining the NUL-split chunks with NUL restores the original text. -/
theorem joinSep_nul_splitNul (l : List Char) :
    joinSep [nulChar] (splitNul l) = l := by
  induction l with
  | nil => rfl
  | cons c rest ih =>
    rw [splitNul]
    by_cases h : c = nulChar
    · rw [if_pos h]
      cases hs : splitNul rest with
      | nil => exact absurd hs (splitNul_ne_nil rest)
      | cons ch more =>
        rw [joinSep]
        rw [← hs, ih, h]
        simp
    · rw [if_neg h]
      cases hs : splitNul rest with
      | nil => exact absurd hs (splitNul_ne_nil rest)
      | cons ch more =>
        rw [joinSep_cons_chunk]
        rw [← hs, ih]

/-- The literal parser undoes the escaping of a chunk, stopping at the
closing quote, provided the following input does not begin with a quote. -/
theorem parseInner_escape (chunk : List Char) :
    ∀ rest : List Char, rest.head? ≠ some quoteChar →
      parseInner (escape chunk ++ quoteChar :: rest) = some (chunk, rest) := by
  induction chunk with
  | nil =>
    intro rest hrest
    show parseInner (quoteChar :: rest) = some ([], rest)
    cases rest with
    | nil =>
      rw [show parseInner [quoteChar]
        = if quoteChar = quoteChar then some ([], []) else none from rfl, if_pos rfl]
    | cons r rs =>
      have hr : r ≠ quoteChar := by
        intro he
        exact hrest (by rw [he]; rfl)
      rw [parseInner, if_pos rfl, if_neg hr]
  | cons c cs ih =>
    intro rest hrest
    by_cases hc : c = quoteChar
    · have hesc : escape (c :: cs) = quoteChar :: quoteChar :: escape cs := by
        simp [escape, escChar, hc]
      rw [hesc]
      show parseInner (quoteChar :: quoteChar :: (escape cs ++ quoteChar :: rest))
        = some (c :: cs, rest)
      rw [parseInner, if_pos rfl, if_pos rfl]
      rw [ih rest hrest]
      simp [hc]
    · have hesc : escape (c :: cs) = c :: escape cs := by
        simp [escape, escChar, hc]
      rw [hesc]
      cases he : escape cs ++ quoteChar :: rest with
      | nil => simp at he
      | cons e es =>
        rw [List.cons_append, he]
        rw [parseInner, if_neg hc]
        rw [← he, ih rest hrest]
        rfl

/-- Parsing one quoted chunk from the front recovers the chunk and the
following input. -/
theorem parseLit_quoteChunk (chunk rest : List Char)
    (hrest : rest.head? ≠ some quoteChar) :
    parseLit (quoteChunk chunk ++ rest) = some (chunk, rest) := by
  have hq : quoteChunk chunk ++ rest
      = quoteChar :: (escape chunk ++ quoteChar :: rest) := by
    simp [quoteChunk]
  rw [hq, parseLit, if_pos rfl]
  exact parseInner_escape chunk rest hrest

/-- Consuming the separator from the front strips exactly it. -/
theorem consumeSep_append (l : List Char) :
    consumeSep (nulSep ++ l) = some l := by
  rw [consumeSep, if_pos, List.drop_left]
  exact List.take_left nulSep l

/-- Parsing the separator-joined quoted chunks recovers the NUL-joined
chunks, for any fuel bounding the chunk count. -/
theorem parseConcat_chunks (chunks : List (List Char)) :
    ∀ fuel : Nat, chunks ≠ [] → chunks.length ≤ fuel →
      parseConcat fuel (joinSep nulSep (chunks.map quoteChunk))
        = some (joinSep [nulChar] chunks) := by
  induction chunks with
  | nil => intro fuel h _; exact absurd rfl h
  | cons x t ih =>
    intro fuel _ hlen
    cases fuel with
    | zero => simp at hlen
    | succ f =>
      cases t with
      | nil =>
        have henc : joinSep nulSep ([x].map quoteChunk) = quoteChunk x ++ [] := by
          simp [joinSep]
        rw [henc, parseConcat]
        rw [parseLit_quoteChunk x [] (by simp)]
        simp [joinSep]
      | cons y t2 =>
        have henc : joinSep nulSep ((x :: y :: t2).map quoteChunk)
            = quoteChunk x ++ (nulSep ++ joinSep nulSep ((y :: t2).map quoteChunk)) := by
          simp only [List.map_cons, joinSep]
          simp [List.append_assoc]
        rw [henc, parseConcat]
        rw [parseLit_quoteChunk x _ (by simp [nulSep]; decide)]
        have hne : (nulSep ++ joinSep nulSep ((y :: t2).map quoteChunk)).isEmpty
            = false := by
          simp [nulSep]
        dsimp only
        rw [hne]
        simp only [Bool.false_eq_true, if_false]
        rw [consumeSep_append]
        dsimp only
        rw [ih f (by simp) (by simp at hlen ⊢; omega)]
        simp [joinSep]

/-- Every quoted chunk is nonempty. -/
theorem quoteChunk_length (ch : List Char) : 1 ≤ (quoteChunk ch).length := by
  simp [quoteChunk]

/-- The join of the quoted chunks is at least as long as the chunk count. -/
theorem joinSep_quoteChunk_length (chunks : List (List Char)) :
    chunks.length ≤ (joinSep nulSep (chunks.map quoteChunk)).length := by
  induction chunks with
  | nil => simp [joinSep]
  | cons x t ih =>
    cases t with
    | nil => simp [joinSep, quoteChunk]
    | cons y t2 =>
      have henc : joinSep nulSep ((x :: y :: t2).map quoteChunk)
          = quoteChunk x ++ nulSep ++ joinSep nulSep ((y :: t2).map quoteChunk) := by
        simp only [List.map_cons, joinSep]
      rw [henc]
      simp only [List.length_append, List.length_cons]
      have h1 := quoteChunk_length x
      simp at ih ⊢
      omega

/-- A rendered text literal decodes back to the text it encodes. -/
theorem sqlTextDecode_textLiteral (s : String) :
    sqlTextDecode (textLiteral s) = some s := by
  have hdata : (textLiteral s).data
      = joinSep nulSep ((splitNul s.data).map quoteChunk) := rfl
  rw [sqlTextDecode, hdata]
  rw [parseConcat_chunks (splitNul s.data) _ (splitNul_ne_nil s.data)
    (by have := joinSep_quoteChunk_length (splitNul s.data); omega)]
  rw [joinSep_nul_splitNul]
  cases s with
  | mk d => rfl

/-- C5: format_sql_value renders NULL for null; the decimal rendering for an
integer (an independent decimal reader recovers the integer, and the
boundary values render as expected); the carried decimal rendering for a
float; for text the single-quoted literal with every embedded quote doubled
and every NUL byte encoded as an X zero-byte concatenation, which an
independent quoted-literal parser decodes back to the text; for bytes the X
hexadecimal literal, which the hexadecimal decoder decodes back to the
bytes; and a TypeError for any other input type.  The concrete text and
blob renderings match the vectors of the repository test-suite. -/
theorem format_sql_value_spec :
    (format_sql_value .null = .ok "NULL") ∧
    (∀ i : Int, format_sql_value (.int i) = .ok (intRender i) ∧
      readIntChars (intRender i).data = i) ∧
    (∀ r : String, format_sql_value (.real r) = .ok r) ∧
    (∀ s : String, format_sql_value (.text s) = .ok (textLiteral s) ∧
      sqlTextDecode (textLiteral s) = some s) ∧
    (∀ bs : List Nat, (∀ b ∈ bs, b < 256) →
      format_sql_value (.blob bs) = .ok (blobLiteral bs) ∧
      blobDecode (blobLiteral bs) = bs) ∧
    (format_sql_value .other = .error .typeErr) ∧
    (textLiteral (String.mk ['A', 'B', nulChar, 'C'])
      = String.mk ([quoteChar, 'A', 'B', quoteChar] ++ nulSep
          ++ [quoteChar, 'C', quoteChar])) ∧
    (textLiteral (String.mk [quoteChar, 'a'])
      = String.mk [quoteChar, quoteChar, quoteChar, 'a', quoteChar]) ∧
    (blobLiteral [65, 66, 68, 69, 0, 67]
      = String.mk ('X' :: quoteChar :: ("414244450043".data ++ [quoteChar]))) ∧
    (intRender 9223372036854775807 = "9223372036854775807" ∧
     intRender (-9223372036854775808) = "-9223372036854775808") := by
  refine ⟨rfl, ?_, fun r => rfl, ?_, ?_, rfl, by decide, by decide, by decide, ?_, ?_⟩
  · intro i
    exact ⟨rfl, readIntChars_intRender i⟩
  · intro s
    exact ⟨rfl, sqlTextDecode_textLiteral s⟩
  · intro bs hbs
    exact ⟨rfl, blobDecode_blobLiteral bs hbs⟩
  · simp only [intRender]
    norm_num
    simp [natDigits]
    decide
  · simp only [intRender]
    norm_num
    simp [natDigits]
    decide

/-- C5 witness: the blob clause instantiated at the test-suite byte vector,
discharging the byte-range hypothesis concretely. -/
theorem format_sql_value_spec_witness :
    (∀ b ∈ [65, 66, 68, 69, 0, 67], b < 256) ∧
    blobDecode (blobLiteral [65, 66, 68, 69, 0, 67]) = [65, 66, 68, 69, 0, 67] := by
  refine ⟨by decide, ?_⟩
  exact (format_sql_value_spec.2.2.2.2.1 [65, 66, 68, 69, 0, 67] (by decide)).2

end Apsw
